import Mathlib

/-!
Verification of the TLV `Block` codec of `src/src/encoding/block.hpp`.

Modelling conventions:
* a byte buffer (`Buffer` / `ConstBufferPtr`) is a `List Nat` of byte values,
  and `Buffer::const_iterator` positions are `Nat` indexes into that list;
  the shared pointer `m_buffer` is an `Option (List Nat)` (`none` = null);
* `uint32_t` fields are `Nat` values reduced modulo `2^32` where they are
  assigned;
* `throw Block::Error(...)` is modelled by `Except Block.Error`, carrying the
  exact message string of the source;
* the method bodies that live in `block.hpp` are translated directly from the
  source; the constructor / `parse` / `encode` bodies live in `block.cpp`,
  which is not part of the repository, and are modelled from the spec
  (each such definition is marked `Modelled from the spec:`).
-/

set_option linter.unusedVariables false

/-- Error that can be thrown from the block (`Block::Error`, block.hpp line 36),
carrying the `what` message string. -/
structure Block.Error where
  what : String
deriving DecidableEq, Repr

/-- Byte range `[i, j)` of a buffer, the model of a pair of
`Buffer::const_iterator` bounds into a shared buffer. -/
def byteSlice (l : List Nat) (i j : Nat) : List Nat :=
  (l.take j).drop i

/-- The TLV element of `block.hpp` (`class Block`): shared backing buffer
`m_buffer`, type code `m_type`, whole-element range `m_begin`/`m_end`, byte
size `m_size`, value range `m_value_begin`/`m_value_end`, and the ordered
sub-element container `m_subBlocks`. -/
inductive Block where
  | mk (m_buffer : Option (List Nat)) (m_type : Nat)
       (m_begin : Nat) (m_end : Nat) (m_size : Nat)
       (m_value_begin : Nat) (m_value_end : Nat)
       (m_subBlocks : List Block)

/-- Field `m_buffer` (`ConstBufferPtr`). -/
def Block.m_buffer : Block → Option (List Nat)
  | .mk b _ _ _ _ _ _ _ => b

/-- Field `m_type` (`uint32_t`). -/
def Block.m_type : Block → Nat
  | .mk _ t _ _ _ _ _ _ => t

/-- Field `m_begin`. -/
def Block.m_begin : Block → Nat
  | .mk _ _ b _ _ _ _ _ => b

/-- Field `m_end`. -/
def Block.m_end : Block → Nat
  | .mk _ _ _ e _ _ _ _ => e

/-- Field `m_size`. -/
def Block.m_size : Block → Nat
  | .mk _ _ _ _ s _ _ _ => s

/-- Field `m_value_begin`. -/
def Block.m_value_begin : Block → Nat
  | .mk _ _ _ _ _ vb _ _ => vb

/-- Field `m_value_end`. -/
def Block.m_value_end : Block → Nat
  | .mk _ _ _ _ _ _ ve _ => ve

/-- Field `m_subBlocks` (`element_container`, a `std::vector<Block>`). -/
def Block.m_subBlocks : Block → List Block
  | .mk _ _ _ _ _ _ _ cs => cs

/-- Helper rebuilding a block with a replaced sub-element container, keeping
every other field (used to model assignments to `m_subBlocks`). -/
def Block.withSubBlocks (b : Block) (cs : List Block) : Block :=
  .mk b.m_buffer b.m_type b.m_begin b.m_end b.m_size b.m_value_begin b.m_value_end cs

/-- `Block::empty` (block.hpp lines 246-250):
`return m_type == std::numeric_limits<uint32_t>::max();`. -/
def Block.empty (b : Block) : Bool :=
  b.m_type == 2 ^ 32 - 1

/-- `Block::hasWire` (block.hpp lines 253-257):
`return m_buffer && (m_begin != m_end);`. -/
def Block.hasWire (b : Block) : Bool :=
  b.m_buffer.isSome && !(b.m_begin == b.m_end)

/-- `Block::hasValue` (block.hpp lines 259-263):
`return static_cast<bool>(m_buffer);`. -/
def Block.hasValue (b : Block) : Bool :=
  b.m_buffer.isSome

/-- `Block::reset` (block.hpp lines 265-273): resets the shared buffer pointer,
clears the sub-element container, sets `m_type` to the sentinel and returns the
four iterators to the default (position `0` in the model).  `m_size` is not
touched by the source. -/
def Block.reset (b : Block) : Block :=
  .mk none (2 ^ 32 - 1) 0 0 b.m_size 0 0 []

/-- `Block::type` (block.hpp lines 275-279). -/
def Block.type (b : Block) : Nat :=
  b.m_type

/-- Loop body of `Block::get` (block.hpp lines 281-311): scan the sub-element
container in order, return the first element whose `type()` matches, and throw
the not-found `Error` after the loop. -/
def getLoop (t : Nat) : List Block → Except Block.Error Block
  | [] => .error ⟨"(Block::get) Requested a non-existed type [" ++ toString t ++ "] from Block"⟩
  | c :: rest => if c.m_type = t then .ok c else getLoop t rest

/-- `Block::get` (block.hpp lines 281-311).  The method is `const` (the
mutable overload differs only in the returned reference), so it is modelled
as a pure function of the block. -/
def Block.get (b : Block) (t : Nat) : Except Block.Error Block :=
  getLoop t b.m_subBlocks

/-- Loop body of `Block::find` (block.hpp lines 313-341): position of the
first element whose `type()` matches, or the container length (the model of
`m_subBlocks.end()`) when none matches. -/
def findLoop (t : Nat) : List Block → Nat
  | [] => 0
  | c :: rest => if c.m_type = t then 0 else findLoop t rest + 1

/-- `Block::find` (block.hpp lines 313-341), returning the iterator modelled
as a position into `m_subBlocks`. -/
def Block.find (b : Block) (t : Nat) : Nat :=
  findLoop t b.m_subBlocks

/-- `Block::element_begin` (block.hpp lines 448-451, 460-463). -/
def Block.element_begin (b : Block) : Nat :=
  0

/-- `Block::element_end` (block.hpp lines 454-457, 466-469): the
past-the-end iterator of `m_subBlocks`, modelled as its length. -/
def Block.element_end (b : Block) : Nat :=
  b.m_subBlocks.length

/-- Loop body of `Block::remove` (block.hpp lines 343-356): push every element
whose `type()` differs onto a fresh container. -/
def removeLoop (t : Nat) : List Block → List Block
  | [] => []
  | c :: rest => if c.m_type != t then c :: removeLoop t rest else removeLoop t rest

/-- `Block::remove` (block.hpp lines 343-356): rebuild `m_subBlocks` without
the elements of the given type and swap it in. -/
def Block.remove (b : Block) (t : Nat) : Block :=
  b.withSubBlocks (removeLoop t b.m_subBlocks)

/-- `Block::erase(position)` (block.hpp lines 358-362). -/
def Block.erase (b : Block) (position : Nat) : Block :=
  b.withSubBlocks (b.m_subBlocks.take position ++ b.m_subBlocks.drop (position + 1))

/-- `Block::push_back` (block.hpp lines 371-375):
`m_subBlocks.push_back(element);`. -/
def Block.push_back (b : Block) (element : Block) : Block :=
  b.withSubBlocks (b.m_subBlocks ++ [element])

/-- `Block::getAll` (block.hpp lines 378-388). -/
def Block.getAll (b : Block) : List Block :=
  b.m_subBlocks

/-- `Block::elements` (block.hpp lines 390-400). -/
def Block.elements (b : Block) : List Block :=
  b.m_subBlocks

/-- `Block::begin` (block.hpp lines 402-409): throws when `hasWire()` is
false, otherwise returns `m_begin`. -/
def Block.begin (b : Block) : Except Block.Error Nat :=
  if !b.hasWire then .error ⟨"Underlying wire buffer is empty"⟩
  else .ok b.m_begin

/-- `Block::end` (block.hpp lines 411-418): throws when `hasWire()` is false,
otherwise returns `m_end`. -/
def Block.«end» (b : Block) : Except Block.Error Nat :=
  if !b.hasWire then .error ⟨"Underlying wire buffer is empty"⟩
  else .ok b.m_end

/-- `Block::size` (block.hpp lines 420-428): returns `m_size` when
`hasWire() || hasValue()`, otherwise throws. -/
def Block.size (b : Block) : Except Block.Error Nat :=
  if b.hasWire || b.hasValue then .ok b.m_size
  else .error ⟨"Block size cannot be determined (undefined block size)"⟩

/-- `Block::value_begin` (block.hpp lines 430-437). -/
def Block.value_begin (b : Block) : Except Block.Error Nat :=
  if !b.hasValue then .error ⟨"(Block::value_begin) Underlying value buffer is empty"⟩
  else .ok b.m_value_begin

/-- `Block::value_end` (block.hpp lines 439-446). -/
def Block.value_end (b : Block) : Except Block.Error Nat :=
  if !b.hasValue then .error ⟨"(Block::value_end) Underlying value buffer is empty"⟩
  else .ok b.m_value_end

/-- `Block::wire` (block.hpp lines 472-479): throws when `hasWire()` is
false, otherwise returns the pointer `&*m_begin`, modelled as the position. -/
def Block.wire (b : Block) : Except Block.Error Nat :=
  if !b.hasWire then .error ⟨"(Block::wire) Underlying wire buffer is empty"⟩
  else .ok b.m_begin

/-- `Block::value` (block.hpp lines 490-497): throws when `hasValue()` is
false, otherwise returns the pointer `&*m_value_begin`. -/
def Block.value (b : Block) : Except Block.Error Nat :=
  if !b.hasValue then .error ⟨"(Block::value) Underlying value buffer is empty"⟩
  else .ok b.m_value_begin

/-- `Block::value_size` (block.hpp lines 499-506): returns `0` when
`hasValue()` is false, otherwise `m_value_end - m_value_begin`. -/
def Block.value_size (b : Block) : Nat :=
  if !b.hasValue then 0
  else b.m_value_end - b.m_value_begin

/-- Modelled from the spec: the big-endian byte string of width `w` for a
value, as used by the external VarNumber codec of section 6 (the codec lives
in `tlv.hpp`, which is not part of the repository). -/
def beBytes : Nat → Nat → List Nat
  | 0, _ => []
  | w + 1, v => beBytes w (v / 256) ++ [v % 256]

/-- Modelled from the spec: the value of a big-endian byte string (section 6). -/
def beVal (l : List Nat) : Nat :=
  l.foldl (fun acc b => acc * 256 + b) 0

/-- Modelled from the spec: VarNumber encoding (section 6) — values 0-252 as a
single byte, 253-65535 as `0xFD` plus 2 big-endian bytes, up to `2^32 - 1` as
`0xFE` plus 4 bytes, larger values as `0xFF` plus 8 bytes. -/
def encodeVarNumber (v : Nat) : List Nat :=
  if v < 253 then [v]
  else if v < 2 ^ 16 then 253 :: beBytes 2 v
  else if v < 2 ^ 32 then 254 :: beBytes 4 v
  else 255 :: beBytes 8 v

/-- Modelled from the spec: VarNumber decoding (section 6) — from the bytes of
a buffer starting at the decode position, yielding `(value, bytesConsumed)`,
or `none` on a truncation error. -/
def decodeVarNumber : List Nat → Option (Nat × Nat)
  | [] => none
  | first :: rest =>
    if first < 253 then some (first, 1)
    else
      let w : Nat := if first = 253 then 2 else if first = 254 then 4 else 8
      if w ≤ rest.length then some (beVal (rest.take w), 1 + w) else none

/-- Modelled from the spec: reading one TLV header (type VarNumber then length
VarNumber, sections 4.1 and 4.2), yielding
`(type, headerLength, valueLength)`, or `none` when either VarNumber is
truncated. -/
def readTLV (l : List Nat) : Option (Nat × Nat × Nat) :=
  match decodeVarNumber l with
  | none => none
  | some (t, c1) =>
    match decodeVarNumber (l.drop c1) with
    | none => none
    | some (len, c2) => some (t, c1 + c2, len)

/-- Modelled from the spec: the constructor `Block(const ConstBufferPtr&)`
(block.hpp line 46, body in the missing block.cpp), per section 4.1 — "reads
the TLV header starting at the buffer's start, determines `type`, the encoded
length, and the value range, sets `wireRange` to exactly the header+value
extent actually consumed. Fails with a decode error if the buffer is shorter
than the declared length or if the VarNumber header is malformed". -/
def Block.fromBuffer (buf : List Nat) : Except Block.Error Block :=
  match readTLV buf with
  | none => .error ⟨"(Block) Failed to read TLV header from the buffer"⟩
  | some (t, hl, len) =>
    if hl + len ≤ buf.length then
      .ok (.mk (some buf) (t % 2 ^ 32) 0 (hl + len) (hl + len) hl (hl + len) [])
    else .error ⟨"(Block) Declared TLV length exceeds the buffer size"⟩

/-- Modelled from the spec: the constructor
`Block(const ConstBufferPtr&, begin, end)` (block.hpp lines 54-55, body in the
missing block.cpp), per section 4.1 — "same header detection, but confined to,
and validated against, the supplied sub-range". -/
def Block.fromBufferRange (buf : List Nat) (b e : Nat) : Except Block.Error Block :=
  match readTLV (byteSlice buf b e) with
  | none => .error ⟨"(Block) Failed to read TLV header from the buffer"⟩
  | some (t, hl, len) =>
    if hl + len ≤ e - b then
      .ok (.mk (some buf) (t % 2 ^ 32) b (b + (hl + len)) (hl + len) (b + hl) (b + (hl + len)) [])
    else .error ⟨"(Block) Declared TLV length exceeds the buffer size"⟩

/-- Modelled from the spec: the constructor
`Block(wire, type, begin, end, valueBegin, valueEnd)` (block.hpp lines 74-77,
body in the missing block.cpp), per section 4.1 — "no parsing performed; the
caller asserts the boundaries are already correct"; `m_size` must equal
`end - begin` whenever the wire range is defined (section 3). -/
def Block.fromWire (buf : List Nat) (t b e vb ve : Nat) : Block :=
  .mk (some buf) (t % 2 ^ 32) b e (e - b) vb ve []

/-- Modelled from the spec: the raw-pointer and stream constructors
(block.hpp lines 60-67, bodies in the missing block.cpp), per section 4.1 —
"convenience forms that first materialize an internal buffer, then apply
buffer-based detection". -/
def Block.fromRaw (bytes : List Nat) : Except Block.Error Block :=
  Block.fromBuffer bytes

/-- Modelled from the spec: the type-only constructor `Block(uint32_t)`
(block.hpp lines 82-83, body in the missing block.cpp), per section 4.1 —
"produces an empty-value container with `backingBuffer` absent and no
`wireRange`". -/
def Block.fromType (t : Nat) : Block :=
  .mk none (t % 2 ^ 32) 0 0 0 0 0 []

/-- Modelled from the spec: the constructor `Block(uint32_t, ConstBufferPtr)`
(block.hpp line 92, body in the missing block.cpp), per sections 3 and 4.1 —
`hasValue()` true, `hasWire()` false (the whole-element iterators both at the
buffer end), value bytes exactly the supplied buffer's bytes, and `m_size` the
byte length that would result from encoding. -/
def Block.fromTypeValue (t : Nat) (v : List Nat) : Block :=
  .mk (some v) (t % 2 ^ 32) v.length v.length
    ((encodeVarNumber (t % 2 ^ 32)).length + (encodeVarNumber v.length).length + v.length)
    0 v.length []

/-- Modelled from the spec: the value bytes an element carries — the
`[m_value_begin, m_value_end)` slice of the backing buffer, empty when the
buffer pointer is null (sections 3 and 4.3). -/
def Block.valueBytes (b : Block) : List Nat :=
  match b.m_buffer with
  | none => []
  | some buf => byteSlice buf b.m_value_begin b.m_value_end

/-- Modelled from the spec: the wire bytes of an element — the
`[m_begin, m_end)` slice of the backing buffer (glossary: "wire form"). -/
def Block.wireBytes (b : Block) : List Nat :=
  match b.m_buffer with
  | none => []
  | some buf => byteSlice buf b.m_begin b.m_end

/-- Modelled from the spec: the element state produced by `encode()` for type
`t` and value bytes `v` (section 4.3) — a freshly allocated buffer holding the
VarNumber of the type, the VarNumber of the value length, then the value
bytes, with `wireRange`, `valueRange` and `m_size` assigned to it. -/
def mkEncoded (t : Nat) (v : List Nat) : Block :=
  let h := encodeVarNumber t ++ encodeVarNumber v.length
  .mk (some (h ++ v)) t 0 (h.length + v.length) (h.length + v.length)
    h.length (h.length + v.length) []

mutual

/-- Modelled from the spec: `Block::encode` (block.hpp lines 131-132, body in
the missing block.cpp), per section 4.3 — re-encoding an element that already
has a valid wire form is a no-op; otherwise the element is serialized into a
freshly allocated buffer, the value bytes being the element's own value buffer
verbatim or, if the element owns children instead, the concatenation of each
child's encoding, recursively encoding the children first. -/
def Block.encode : Block → Except Block.Error Block
  | .mk buf t bg en sz vb ve cs =>
    let b : Block := .mk buf t bg en sz vb ve cs
    if b.hasWire then .ok b
    else if cs.isEmpty then .ok (mkEncoded t b.valueBytes)
    else
      match encodeList cs with
      | .error e => .error e
      | .ok cs' =>
        .ok ((mkEncoded t ((cs'.map Block.wireBytes).flatten)).withSubBlocks cs')

/-- Modelled from the spec: recursive encoding of the children of an element
(section 4.3), in container order. -/
def encodeList : List Block → Except Block.Error (List Block)
  | [] => .ok []
  | c :: rest =>
    match Block.encode c with
    | .error e => .error e
    | .ok c' =>
      match encodeList rest with
      | .error e => .error e
      | .ok rest' => .ok (c' :: rest')

end

/-- Modelled from the spec: the nested constructor `Block(uint32_t, const
Block&)` (block.hpp lines 101-102, body in the missing block.cpp), per
section 4.1 — "wraps another element as if it were opaque value bytes of the
new type": the wrapped element's wire encoding becomes the value buffer. -/
def Block.fromNested (t : Nat) (inner : Block) : Except Block.Error Block :=
  match inner.encode with
  | .error e => .error e
  | .ok i => .ok (Block.fromTypeValue t i.wireBytes)

/-- Modelled from the spec: the child-decoding loop of `Block::parse`
(section 4.2) — while the cursor has not reached `valueEnd`, read one TLV
header confined to the value range, fail if it is truncated (under-read) or
its declared length runs past `valueEnd` (over-read), otherwise append a child
element referencing the same backing buffer with its wire and value ranges set
to the span just consumed, and advance the cursor past the value.  The `fuel`
argument makes the recursion structural; it is instantiated with
`valueEnd - cursor`, which bounds the iteration count since every iteration
consumes at least one byte, so the fuel-exhaustion branch is unreachable. -/
def parseLoop (mbuf : Option (List Nat)) : Nat → Nat → Nat → Except Block.Error (List Block)
  | 0, cursor, ve =>
    if cursor < ve then .error ⟨"(Block::parse) Failed to read TLV header from the value range"⟩
    else .ok []
  | fuel + 1, cursor, ve =>
    if cursor < ve then
      match readTLV (byteSlice (mbuf.getD []) cursor ve) with
      | none => .error ⟨"(Block::parse) Failed to read TLV header from the value range"⟩
      | some (t, hl, len) =>
        if hl + len ≤ ve - cursor then
          match parseLoop mbuf fuel (cursor + (hl + len)) ve with
          | .error e => .error e
          | .ok rest =>
            .ok (.mk mbuf (t % 2 ^ 32) cursor (cursor + (hl + len)) (hl + len)
                   (cursor + hl) (cursor + (hl + len)) [] :: rest)
        else .error ⟨"(Block::parse) Declared TLV length exceeds the value range"⟩
    else .ok []

/-- Modelled from the spec: `Block::parse` (block.hpp lines 128-129, body in
the missing block.cpp), per sections 4.2 and 8 — one-level expansion of the
value range into child elements over the same backing buffer; a second
`parse()` without intervening mutation does not duplicate the children
(section 8), modelled by the already-parsed guard. -/
def Block.parse (b : Block) : Except Block.Error Block :=
  if b.m_subBlocks.isEmpty then
    match parseLoop b.m_buffer (b.m_value_end - b.m_value_begin) b.m_value_begin b.m_value_end with
    | .error e => .error e
    | .ok cs => .ok (b.withSubBlocks cs)
  else .ok b

/-- The round-trip property of section 8, stated from the spec's words:
`decode(encode(E))` yields an element with the same type and the same
value-byte sequence as `E` — the decode of the encoded wire recovers the type
and the value bytes the encode assigned, which agree with `E`'s own type, and
with `E`'s own value bytes whenever `E` carries a value buffer. -/
def RoundTrips (b : Block) : Prop :=
  ∃ b' d, b.encode = .ok b' ∧ Block.fromBuffer b'.wireBytes = .ok d
    ∧ d.m_type = b'.m_type ∧ d.valueBytes = b'.valueBytes
    ∧ b'.m_type = b.m_type ∧ (b.hasValue = true → b'.valueBytes = b.valueBytes)

/-! ## Basic lemmas about the embedding -/

theorem m_buffer_mk (buf : Option (List Nat)) (t bg en sz vb ve : Nat) (cs : List Block) :
    (Block.mk buf t bg en sz vb ve cs).m_buffer = buf := rfl

theorem m_type_mk (buf : Option (List Nat)) (t bg en sz vb ve : Nat) (cs : List Block) :
    (Block.mk buf t bg en sz vb ve cs).m_type = t := rfl

theorem m_begin_mk (buf : Option (List Nat)) (t bg en sz vb ve : Nat) (cs : List Block) :
    (Block.mk buf t bg en sz vb ve cs).m_begin = bg := rfl

theorem m_end_mk (buf : Option (List Nat)) (t bg en sz vb ve : Nat) (cs : List Block) :
    (Block.mk buf t bg en sz vb ve cs).m_end = en := rfl

theorem m_size_mk (buf : Option (List Nat)) (t bg en sz vb ve : Nat) (cs : List Block) :
    (Block.mk buf t bg en sz vb ve cs).m_size = sz := rfl

theorem m_value_begin_mk (buf : Option (List Nat)) (t bg en sz vb ve : Nat) (cs : List Block) :
    (Block.mk buf t bg en sz vb ve cs).m_value_begin = vb := rfl

theorem m_value_end_mk (buf : Option (List Nat)) (t bg en sz vb ve : Nat) (cs : List Block) :
    (Block.mk buf t bg en sz vb ve cs).m_value_end = ve := rfl

theorem m_subBlocks_mk (buf : Option (List Nat)) (t bg en sz vb ve : Nat) (cs : List Block) :
    (Block.mk buf t bg en sz vb ve cs).m_subBlocks = cs := rfl

/-- Rebuilding a block from its own fields is the identity. -/
theorem withSubBlocks_self (b : Block) : b.withSubBlocks b.m_subBlocks = b := by
  cases b
  rfl

/-! ## VarNumber codec lemmas -/

theorem beBytes_length (w v : Nat) : (beBytes w v).length = w := by
  induction w generalizing v with
  | zero => rfl
  | succ w ih => simp [beBytes, ih]

theorem beVal_append_singleton (l : List Nat) (b : Nat) :
    beVal (l ++ [b]) = beVal l * 256 + b := by
  simp [beVal, List.foldl_append]


theorem beVal_beBytes (w v : Nat) : beVal (beBytes w v) = v % 256 ^ w := by
  induction w generalizing v with
  | zero => simp [beBytes, beVal, Nat.mod_one]
  | succ w ih =>
    rw [beBytes, beVal_append_singleton, ih]
    rw [pow_succ, mul_comm (256 ^ w) 256, Nat.mod_mul]
    ring

theorem beVal_beBytes_of_lt (w v : Nat) (h : v < 256 ^ w) :
    beVal (beBytes w v) = v := by
  rw [beVal_beBytes, Nat.mod_eq_of_lt h]

theorem encodeVarNumber_length_pos (v : Nat) : 1 ≤ (encodeVarNumber v).length := by
  unfold encodeVarNumber
  split
  · simp
  · split
    · simp
    · split
      · simp
      · simp

theorem decodeVarNumber_marker (m w v : Nat) (rest : List Nat)
    (hm : m = 253 ∧ w = 2 ∨ m = 254 ∧ w = 4 ∨ m = 255 ∧ w = 8)
    (hv : v < 256 ^ w) :
    decodeVarNumber (m :: (beBytes w v ++ rest)) = some (v, 1 + w) := by
  have hlen : (beBytes w v).length = w := beBytes_length w v
  have htk : (beBytes w v ++ rest).take w = beBytes w v :=
    List.take_left' hlen
  have hln : w ≤ (beBytes w v ++ rest).length := by
    rw [List.length_append, hlen]; omega
  simp only [decodeVarNumber]
  rw [if_neg (by omega)]
  have hw : (if m = 253 then 2 else if m = 254 then 4 else 8) = w := by
    rcases hm with ⟨rfl, rfl⟩ | ⟨rfl, rfl⟩ | ⟨rfl, rfl⟩ <;> norm_num
  rw [hw, if_pos hln, htk, beVal_beBytes_of_lt w v hv]

theorem decodeVarNumber_encode (v : Nat) (rest : List Nat) (h : v < 2 ^ 64) :
    decodeVarNumber (encodeVarNumber v ++ rest) = some (v, (encodeVarNumber v).length) := by
  unfold encodeVarNumber
  split
  · rename_i h1
    simp [decodeVarNumber, h1]
  · rename_i h1
    split
    · rename_i h2
      rw [List.cons_append, decodeVarNumber_marker 253 2 v rest (by norm_num) (by norm_num; omega)]
      simp [beBytes_length]
    · rename_i h2
      split
      · rename_i h3
        rw [List.cons_append, decodeVarNumber_marker 254 4 v rest (by norm_num) (by norm_num; omega)]
        simp [beBytes_length]
      · rename_i h3
        rw [List.cons_append, decodeVarNumber_marker 255 8 v rest (by norm_num) (by norm_num; omega)]
        simp [beBytes_length]

theorem decodeVarNumber_consumed_pos (l : List Nat) (v c : Nat)
    (h : decodeVarNumber l = some (v, c)) : 1 ≤ c := by
  cases l with
  | nil => simp [decodeVarNumber] at h
  | cons first rest =>
    simp only [decodeVarNumber] at h
    split at h
    · simp only [Option.some.injEq, Prod.mk.injEq] at h
      omega
    · generalize hw : (if first = 253 then (2:Nat) else if first = 254 then 4 else 8) = w at h
      split at h
      · simp only [Option.some.injEq, Prod.mk.injEq] at h
        omega
      · simp at h

theorem decodeVarNumber_take (l : List Nat) (v c n : Nat)
    (h : decodeVarNumber l = some (v, c)) (hc : c ≤ n) :
    decodeVarNumber (l.take n) = some (v, c) := by
  cases l with
  | nil => simp [decodeVarNumber] at h
  | cons first rest =>
    have hc1 : 1 ≤ c := decodeVarNumber_consumed_pos _ _ _ h
    obtain ⟨n', rfl⟩ : ∃ n', n = n' + 1 := ⟨n - 1, by omega⟩
    simp only [List.take_succ_cons]
    by_cases hf : first < 253
    · simp only [decodeVarNumber, if_pos hf] at h ⊢
      exact h
    · simp only [decodeVarNumber, if_neg hf] at h ⊢
      generalize hw : (if first = 253 then (2:Nat) else if first = 254 then 4 else 8) = w at h ⊢
      by_cases hwl : w ≤ rest.length
      · rw [if_pos hwl] at h
        simp only [Option.some.injEq, Prod.mk.injEq] at h
        obtain ⟨hval, hcc⟩ := h
        have hw' : w ≤ n' := by omega
        rw [if_pos (by rw [List.length_take]; omega)]
        rw [List.take_take, min_eq_left hw']
        simp [hval, hcc]
      · rw [if_neg hwl] at h
        simp at h

theorem readTLV_inv (l : List Nat) (t hl len : Nat) (h : readTLV l = some (t, hl, len)) :
    ∃ c1 c2, decodeVarNumber l = some (t, c1) ∧ decodeVarNumber (l.drop c1) = some (len, c2)
      ∧ hl = c1 + c2 := by
  unfold readTLV at h
  cases h1 : decodeVarNumber l with
  | none => rw [h1] at h; simp at h
  | some p1 =>
    obtain ⟨tv, c1⟩ := p1
    rw [h1] at h
    dsimp only at h
    cases h2 : decodeVarNumber (l.drop c1) with
    | none => rw [h2] at h; simp at h
    | some p2 =>
      obtain ⟨lv, c2⟩ := p2
      rw [h2] at h
      dsimp only at h
      simp only [Option.some.injEq, Prod.mk.injEq] at h
      obtain ⟨rfl, rfl, rfl⟩ := h
      exact ⟨c1, c2, rfl, h2, rfl⟩

theorem readTLV_intro (l : List Nat) (t c1 len c2 : Nat)
    (h1 : decodeVarNumber l = some (t, c1)) (h2 : decodeVarNumber (l.drop c1) = some (len, c2)) :
    readTLV l = some (t, c1 + c2, len) := by
  simp only [readTLV, h1, h2]

theorem readTLV_take (l : List Nat) (t hl len n : Nat)
    (h : readTLV l = some (t, hl, len)) (hn : hl ≤ n) :
    readTLV (l.take n) = some (t, hl, len) := by
  obtain ⟨c1, c2, h1, h2, rfl⟩ := readTLV_inv l t hl len h
  have hc1 : 1 ≤ c1 := decodeVarNumber_consumed_pos _ _ _ h1
  have hc2 : 1 ≤ c2 := decodeVarNumber_consumed_pos _ _ _ h2
  have d1 : decodeVarNumber (l.take n) = some (t, c1) :=
    decodeVarNumber_take l t c1 n h1 (by omega)
  have d2 : decodeVarNumber ((l.take n).drop c1) = some (len, c2) := by
    rw [List.drop_take]
    exact decodeVarNumber_take (l.drop c1) len c2 (n - c1) h2 (by omega)
  exact readTLV_intro (l.take n) t c1 len c2 d1 d2

theorem readTLV_header_pos (l : List Nat) (t hl len : Nat)
    (h : readTLV l = some (t, hl, len)) : 2 ≤ hl := by
  obtain ⟨c1, c2, h1, h2, rfl⟩ := readTLV_inv l t hl len h
  have hc1 : 1 ≤ c1 := decodeVarNumber_consumed_pos _ _ _ h1
  have hc2 : 1 ≤ c2 := decodeVarNumber_consumed_pos _ _ _ h2
  omega

/-! ## Lemmas about encode, parse and the decoding constructors -/

theorem hasWire_withSubBlocks (b : Block) (cs : List Block) :
    (b.withSubBlocks cs).hasWire = b.hasWire := by
  cases b
  rfl

theorem m_subBlocks_withSubBlocks (b : Block) (cs : List Block) :
    (b.withSubBlocks cs).m_subBlocks = cs := by
  cases b
  rfl

theorem mkEncoded_m_type (t : Nat) (v : List Nat) : (mkEncoded t v).m_type = t := rfl

theorem mkEncoded_hasWire (t : Nat) (v : List Nat) : (mkEncoded t v).hasWire = true := by
  have h1 := encodeVarNumber_length_pos t
  simp [mkEncoded, Block.hasWire, Block.m_buffer, Block.m_begin, Block.m_end]
  omega

theorem mkEncoded_wireBytes (t : Nat) (v : List Nat) :
    (mkEncoded t v).wireBytes = (encodeVarNumber t ++ encodeVarNumber v.length) ++ v := by
  simp only [mkEncoded, Block.wireBytes, Block.m_buffer, Block.m_begin, Block.m_end, byteSlice]
  rw [List.take_of_length_le (by simp; omega), List.drop_zero]

theorem mkEncoded_valueBytes (t : Nat) (v : List Nat) : (mkEncoded t v).valueBytes = v := by
  simp only [mkEncoded, Block.valueBytes, Block.m_buffer, Block.m_value_begin, Block.m_value_end,
    byteSlice]
  rw [List.take_of_length_le (by simp; omega), List.drop_left]

theorem encode_hasWire (b : Block) (h : b.hasWire = true) : b.encode = .ok b := by
  cases b
  simp [Block.encode, h]

theorem encode_ok_hasWire (b b' : Block) (h : b.encode = .ok b') : b'.hasWire = true := by
  cases b with
  | mk buf t bg en sz vb ve cs =>
    simp only [Block.encode] at h
    split at h
    · rename_i hw
      cases h
      exact hw
    · split at h
      · cases h
        exact mkEncoded_hasWire _ _
      · split at h
        · cases h
        · cases h
          rw [hasWire_withSubBlocks]
          exact mkEncoded_hasWire _ _

theorem encode_no_children (b : Block) (h0 : b.m_subBlocks = []) (h1 : b.hasWire = false) :
    b.encode = .ok (mkEncoded b.m_type b.valueBytes) := by
  cases b
  simp only [Block.m_subBlocks] at h0
  subst h0
  simp [Block.encode, h1, Block.m_type, Block.m_subBlocks, Block.valueBytes]

theorem parse_ok_parse (b b' : Block) (h : b.parse = .ok b') : b'.parse = .ok b' := by
  unfold Block.parse at h
  by_cases he : b.m_subBlocks.isEmpty
  · rw [if_pos he] at h
    cases hp : parseLoop b.m_buffer (b.m_value_end - b.m_value_begin) b.m_value_begin b.m_value_end with
    | error e => rw [hp] at h; cases h
    | ok cs =>
      rw [hp] at h
      dsimp only at h
      cases h
      cases hcs : cs with
      | nil =>
        have hb : b.withSubBlocks [] = b := by
          conv_lhs => rw [← List.isEmpty_iff.mp he]
          rw [withSubBlocks_self]
        rw [hb]
        unfold Block.parse
        rw [hcs] at hp
        rw [if_pos he, hp]
        dsimp only
        rw [hb]
      | cons c rest =>
        unfold Block.parse
        rw [if_neg (by simp [m_subBlocks_withSubBlocks, hcs])]
  · rw [if_neg he] at h
    cases h
    unfold Block.parse
    rw [if_neg he]

theorem fromBuffer_inv (buf : List Nat) (b : Block) (h : Block.fromBuffer buf = .ok b) :
    ∃ t hl len, readTLV buf = some (t, hl, len) ∧ hl + len ≤ buf.length ∧
      b = .mk (some buf) (t % 2 ^ 32) 0 (hl + len) (hl + len) hl (hl + len) [] := by
  unfold Block.fromBuffer at h
  cases h1 : readTLV buf with
  | none => rw [h1] at h; cases h
  | some p =>
    obtain ⟨t, hl, len⟩ := p
    rw [h1] at h
    dsimp only at h
    by_cases h2 : hl + len ≤ buf.length
    · rw [if_pos h2] at h
      cases h
      exact ⟨t, hl, len, rfl, h2, rfl⟩
    · rw [if_neg h2] at h
      cases h

theorem fromBuffer_intro (buf : List Nat) (t hl len : Nat)
    (h : readTLV buf = some (t, hl, len)) (h2 : hl + len ≤ buf.length) :
    Block.fromBuffer buf = .ok (.mk (some buf) (t % 2 ^ 32) 0 (hl + len) (hl + len) hl (hl + len) []) := by
  unfold Block.fromBuffer
  rw [h]
  dsimp only
  rw [if_pos h2]

theorem fromBuffer_take_slice (s : List Nat) (t hl len : Nat)
    (h : readTLV s = some (t, hl, len)) (hle : hl + len ≤ s.length) :
    Block.fromBuffer (s.take (hl + len)) =
      .ok (.mk (some (s.take (hl + len))) (t % 2 ^ 32) 0 (hl + len) (hl + len) hl (hl + len) []) := by
  have hr : readTLV (s.take (hl + len)) = some (t, hl, len) :=
    readTLV_take s t hl len (hl + len) h (by omega)
  have hlen : hl + len ≤ (s.take (hl + len)).length := by
    rw [List.length_take]
    omega
  exact fromBuffer_intro _ t hl len hr hlen

theorem fromBuffer_mkEncoded (t : Nat) (v : List Nat) (ht : t < 2 ^ 32) (hv : v.length < 2 ^ 64) :
    ∃ d, Block.fromBuffer (mkEncoded t v).wireBytes = .ok d ∧ d.m_type = t ∧ d.valueBytes = v := by
  have d1 : decodeVarNumber (encodeVarNumber t ++ (encodeVarNumber v.length ++ v)) =
      some (t, (encodeVarNumber t).length) :=
    decodeVarNumber_encode t _ (lt_trans ht (by norm_num))
  have d2 : decodeVarNumber ((encodeVarNumber t ++ (encodeVarNumber v.length ++ v)).drop
      (encodeVarNumber t).length) = some (v.length, (encodeVarNumber v.length).length) := by
    rw [List.drop_left]
    exact decodeVarNumber_encode v.length v hv
  have hr : readTLV (encodeVarNumber t ++ (encodeVarNumber v.length ++ v)) =
      some (t, (encodeVarNumber t).length + (encodeVarNumber v.length).length, v.length) :=
    readTLV_intro _ _ _ _ _ d1 d2
  have hw : (mkEncoded t v).wireBytes = encodeVarNumber t ++ (encodeVarNumber v.length ++ v) := by
    rw [mkEncoded_wireBytes, List.append_assoc]
  have hlen : (encodeVarNumber t).length + (encodeVarNumber v.length).length + v.length ≤
      (encodeVarNumber t ++ (encodeVarNumber v.length ++ v)).length := by
    simp [List.length_append]
    omega
  refine ⟨_, by rw [hw]; exact fromBuffer_intro _ _ _ _ hr hlen, ?_, ?_⟩
  · simp only [Block.m_type]
    exact Nat.mod_eq_of_lt ht
  · simp only [Block.valueBytes, Block.m_buffer, Block.m_value_begin, Block.m_value_end, byteSlice]
    rw [List.take_of_length_le (by simp [List.length_append]; omega)]
    rw [← List.append_assoc]
    exact List.drop_left' (by simp)

theorem RT_hasWire (b d : Block) (hw : b.hasWire = true)
    (hd : Block.fromBuffer b.wireBytes = .ok d) (ht : d.m_type = b.m_type)
    (hv : d.valueBytes = b.valueBytes) : RoundTrips b :=
  ⟨b, d, encode_hasWire b hw, hd, ht, hv, rfl, fun _ => rfl⟩

theorem RT_unwired (b : Block) (h0 : b.m_subBlocks = []) (h1 : b.hasWire = false)
    (h2 : b.m_type < 2 ^ 32) (h3 : b.valueBytes.length < 2 ^ 64) : RoundTrips b := by
  obtain ⟨d, hd, hdt, hdv⟩ := fromBuffer_mkEncoded b.m_type b.valueBytes h2 h3
  exact ⟨mkEncoded b.m_type b.valueBytes, d, encode_no_children b h0 h1, hd,
    by rw [hdt, mkEncoded_m_type], by rw [hdv, mkEncoded_valueBytes],
    mkEncoded_m_type _ _, fun _ => mkEncoded_valueBytes _ _⟩

theorem valueBytes_take_slice (s : List Nat) (T hl len : Nat) :
    (Block.mk (some (s.take (hl + len))) T 0 (hl + len) (hl + len) hl (hl + len) []).valueBytes
      = (s.take (hl + len)).drop hl := by
  simp only [Block.valueBytes, Block.m_buffer, Block.m_value_begin, Block.m_value_end, byteSlice]
  rw [List.take_take, min_self]

theorem fromBuffer_roundTrip (B : List Nat) (b : Block) (h : Block.fromBuffer B = .ok b) :
    b.encode = .ok b ∧ b.wireBytes = B.take b.m_size ∧ RoundTrips b := by
  obtain ⟨t, hl, len, hr, hle, rfl⟩ := fromBuffer_inv B b h
  have hhl : 2 ≤ hl := readTLV_header_pos _ _ _ _ hr
  have hne : (0 : Nat) ≠ hl + len := by omega
  have hw : (Block.mk (some B) (t % 2 ^ 32) 0 (hl + len) (hl + len) hl (hl + len) []).hasWire
      = true := by
    simp [Block.hasWire, Block.m_buffer, Block.m_begin, Block.m_end, hne]
  have hwb : (Block.mk (some B) (t % 2 ^ 32) 0 (hl + len) (hl + len) hl (hl + len) []).wireBytes
      = B.take (hl + len) := by
    simp only [Block.wireBytes, Block.m_buffer, Block.m_begin, Block.m_end, byteSlice,
      List.drop_zero]
  refine ⟨encode_hasWire _ hw, by rw [hwb]; rfl, ?_⟩
  refine RT_hasWire _
    (Block.mk (some (B.take (hl + len))) (t % 2 ^ 32) 0 (hl + len) (hl + len) hl (hl + len) [])
    hw ?_ rfl ?_
  · rw [hwb]
    exact fromBuffer_take_slice B t hl len hr hle
  · rw [valueBytes_take_slice]
    rfl

theorem fromBufferRange_inv (buf : List Nat) (i j : Nat) (b : Block)
    (h : Block.fromBufferRange buf i j = .ok b) :
    ∃ t hl len, readTLV (byteSlice buf i j) = some (t, hl, len) ∧ hl + len ≤ j - i ∧
      b = .mk (some buf) (t % 2 ^ 32) i (i + (hl + len)) (hl + len) (i + hl) (i + (hl + len)) [] := by
  unfold Block.fromBufferRange at h
  cases h1 : readTLV (byteSlice buf i j) with
  | none => rw [h1] at h; cases h
  | some p =>
    obtain ⟨t, hl, len⟩ := p
    rw [h1] at h
    dsimp only at h
    by_cases h2 : hl + len ≤ j - i
    · rw [if_pos h2] at h
      cases h
      exact ⟨t, hl, len, rfl, h2, rfl⟩
    · rw [if_neg h2] at h
      cases h

theorem fromBufferRange_roundTrip (buf : List Nat) (i j : Nat) (b : Block)
    (hj : j ≤ buf.length) (h : Block.fromBufferRange buf i j = .ok b) : RoundTrips b := by
  obtain ⟨t, hl, len, hr, hle, rfl⟩ := fromBufferRange_inv buf i j b h
  have hhl : 2 ≤ hl := readTLV_header_pos _ _ _ _ hr
  have hij : i + (hl + len) ≤ j := by omega
  have hslen : hl + len ≤ (byteSlice buf i j).length := by
    simp only [byteSlice, List.length_drop, List.length_take]
    omega
  have key : (Block.mk (some buf) (t % 2 ^ 32) i (i + (hl + len)) (hl + len) (i + hl)
      (i + (hl + len)) []).wireBytes = (byteSlice buf i j).take (hl + len) := by
    simp only [Block.wireBytes, Block.m_buffer, Block.m_begin, Block.m_end, byteSlice]
    rw [List.take_drop, List.take_take, min_eq_left hij]
  have hval : (Block.mk (some buf) (t % 2 ^ 32) i (i + (hl + len)) (hl + len) (i + hl)
      (i + (hl + len)) []).valueBytes = ((byteSlice buf i j).take (hl + len)).drop hl := by
    simp only [Block.valueBytes, Block.m_buffer, Block.m_value_begin, Block.m_value_end, byteSlice]
    rw [List.take_drop, List.take_take, min_eq_left hij, List.drop_drop]
  have hne : i ≠ i + (hl + len) := by omega
  have hw : (Block.mk (some buf) (t % 2 ^ 32) i (i + (hl + len)) (hl + len) (i + hl)
      (i + (hl + len)) []).hasWire = true := by
    simp [Block.hasWire, Block.m_buffer, Block.m_begin, Block.m_end, hne]
  refine RT_hasWire _
    (Block.mk (some ((byteSlice buf i j).take (hl + len))) (t % 2 ^ 32) 0 (hl + len) (hl + len)
      hl (hl + len) [])
    hw ?_ rfl ?_
  · rw [key]
    exact fromBuffer_take_slice (byteSlice buf i j) t hl len hr hslen
  · rw [valueBytes_take_slice, hval]

/-! ## Lemmas about the lookup and mutation helpers -/

theorem getLoop_of_find (t : Nat) (l : List Block) (c : Block)
    (h : l.find? (fun x => x.m_type == t) = some c) : getLoop t l = .ok c := by
  induction l with
  | nil => simp [List.find?] at h
  | cons a rest ih =>
    by_cases ha : a.m_type = t
    · rw [List.find?_cons_of_pos _ (by simp [ha])] at h
      cases h
      simp [getLoop, ha]
    · rw [List.find?_cons_of_neg _ (by simp [ha])] at h
      simp [getLoop, ha]
      exact ih h

theorem getLoop_error_iff (t : Nat) (l : List Block) :
    (getLoop t l
        = .error ⟨"(Block::get) Requested a non-existed type [" ++ toString t ++ "] from Block"⟩)
      ↔ ∀ c ∈ l, c.m_type ≠ t := by
  induction l with
  | nil => simp [getLoop]
  | cons a rest ih =>
    by_cases ha : a.m_type = t
    · simp [getLoop, ha]
    · simp [getLoop, ha, ih]

theorem findLoop_le_length (t : Nat) (l : List Block) : findLoop t l ≤ l.length := by
  induction l with
  | nil => simp [findLoop]
  | cons a rest ih =>
    by_cases ha : a.m_type = t
    · simp [findLoop, ha]
    · simp [findLoop, ha]
      omega

theorem findLoop_take (t : Nat) (l : List Block) :
    ∀ c ∈ l.take (findLoop t l), c.m_type ≠ t := by
  induction l with
  | nil => simp [findLoop]
  | cons a rest ih =>
    by_cases ha : a.m_type = t
    · simp [findLoop, ha]
    · simp only [findLoop, if_neg ha, List.take_succ_cons, List.mem_cons]
      rintro c (rfl | hc)
      · exact ha
      · exact ih c hc

theorem findLoop_eq_length_iff (t : Nat) (l : List Block) :
    findLoop t l = l.length ↔ ∀ c ∈ l, c.m_type ≠ t := by
  induction l with
  | nil => simp [findLoop]
  | cons a rest ih =>
    by_cases ha : a.m_type = t
    · simp only [findLoop, if_pos ha, List.length_cons, List.mem_cons]
      constructor
      · omega
      · intro hall
        exact absurd ha (hall a (Or.inl rfl))
    · simp only [findLoop, if_neg ha, List.length_cons, List.mem_cons]
      constructor
      · intro h
        rintro c (rfl | hc)
        · exact ha
        · exact ih.mp (by omega) c hc
      · intro hall
        have := ih.mpr (fun c hc => hall c (Or.inr hc))
        omega

theorem findLoop_get (t : Nat) (l : List Block) (h : findLoop t l < l.length) :
    (l.get ⟨findLoop t l, h⟩).m_type = t ∧ getLoop t l = .ok (l.get ⟨findLoop t l, h⟩) := by
  induction l with
  | nil => simp at h
  | cons a rest ih =>
    by_cases ha : a.m_type = t
    · simp [findLoop, getLoop, ha]
    · have hlt : findLoop t rest < rest.length := by
        have := h
        simp only [findLoop, if_neg ha, List.length_cons] at this
        omega
      have := ih hlt
      constructor
      · have hg : (Block.mk none 0 0 0 0 0 0 (a :: rest)).m_subBlocks = a :: rest := rfl
        simp only [findLoop, if_neg ha]
        rw [List.get_cons_succ]
        exact this.1
      · simp only [getLoop, if_neg ha]
        rw [show ((a :: rest).get ⟨findLoop t (a :: rest), h⟩)
            = rest.get ⟨findLoop t rest, hlt⟩ from ?_]
        · exact this.2
        · simp only [findLoop, if_neg ha]
          rw [List.get_cons_succ]

theorem removeLoop_eq_filter (t : Nat) (l : List Block) :
    removeLoop t l = l.filter (fun c => c.m_type != t) := by
  induction l with
  | nil => rfl
  | cons a rest ih =>
    by_cases ha : a.m_type = t
    · simp [removeLoop, List.filter_cons, ha, ih]
    · simp [removeLoop, List.filter_cons, ha, ih]

/-! ## Round-trip lemmas for the remaining construction forms -/

theorem fromTypeValue_valueBytes (t : Nat) (v : List Nat) :
    (Block.fromTypeValue t v).valueBytes = v := by
  simp only [Block.fromTypeValue, Block.valueBytes, Block.m_buffer, Block.m_value_begin,
    Block.m_value_end, byteSlice, List.take_length, List.drop_zero]

theorem fromTypeValue_hasWire (t : Nat) (v : List Nat) :
    (Block.fromTypeValue t v).hasWire = false := by
  simp [Block.fromTypeValue, Block.hasWire, Block.m_buffer, Block.m_begin, Block.m_end]

theorem RT_fromType (t : Nat) : RoundTrips (Block.fromType t) := by
  refine RT_unwired _ rfl rfl ?_ ?_
  · exact Nat.mod_lt _ (by norm_num)
  · simp [Block.fromType, Block.valueBytes, Block.m_buffer]

theorem RT_fromTypeValue (t : Nat) (v : List Nat) (hv : v.length < 2 ^ 64) :
    RoundTrips (Block.fromTypeValue t v) := by
  refine RT_unwired _ rfl (fromTypeValue_hasWire t v) ?_ ?_
  · exact Nat.mod_lt _ (by norm_num)
  · rw [fromTypeValue_valueBytes]
    exact hv

theorem fromNested_inv (t : Nat) (inner b : Block) (h : Block.fromNested t inner = .ok b) :
    ∃ i, inner.encode = .ok i ∧ b = Block.fromTypeValue t i.wireBytes := by
  unfold Block.fromNested at h
  cases h1 : inner.encode with
  | error e => rw [h1] at h; cases h
  | ok i =>
    rw [h1] at h
    dsimp only at h
    cases h
    exact ⟨i, rfl, rfl⟩

theorem getLoop_ok_iff (t : Nat) (l : List Block) :
    (∃ c, getLoop t l = .ok c) ↔ ∃ c ∈ l, c.m_type = t := by
  induction l with
  | nil => simp [getLoop]
  | cons a rest ih =>
    by_cases ha : a.m_type = t
    · simp [getLoop, ha]
    · simp [getLoop, ha, ih]

/-! ## The claims -/

/-- C3: for every element and type code `t`, `get(t)` returns the first child
whose type equals `t` in insertion order when at least one such child exists,
and raises the not-found error if and only if no child has type `t`.  The
method is `const`: it is modelled as a pure function of the element, so the
child list is unchanged by the call by construction. -/
theorem claim_C3_get (b : Block) (t : Nat) :
    (∀ c, b.m_subBlocks.find? (fun x => x.m_type == t) = some c → b.get t = .ok c)
  ∧ ((b.get t = .error ⟨"(Block::get) Requested a non-existed type ["
        ++ toString t ++ "] from Block"⟩) ↔ ∀ c ∈ b.m_subBlocks, c.m_type ≠ t)
  ∧ ((∃ c, b.get t = .ok c) ↔ ∃ c ∈ b.m_subBlocks, c.m_type = t) :=
  ⟨fun c h => getLoop_of_find t _ c h, getLoop_error_iff t _, getLoop_ok_iff t _⟩

/-- Witness for C3: in a container with children of types 1, 2, 1, `get 1`
returns the first type-1 child and `get 3` raises the not-found error. -/
theorem claim_C3_witness :
    (Block.mk none 7 0 0 0 0 0 [Block.mk none 1 0 0 0 0 0 [], Block.mk none 2 0 0 0 0 0 [],
        Block.mk none 1 0 0 9 0 0 []]).get 1 = .ok (Block.mk none 1 0 0 0 0 0 [])
  ∧ (Block.mk none 7 0 0 0 0 0 [Block.mk none 1 0 0 0 0 0 [], Block.mk none 2 0 0 0 0 0 [],
        Block.mk none 1 0 0 9 0 0 []]).get 3
      = .error ⟨"(Block::get) Requested a non-existed type [" ++ toString 3 ++ "] from Block"⟩ :=
  ⟨(claim_C3_get _ 1).1 (Block.mk none 1 0 0 0 0 0 []) rfl,
   (claim_C3_get _ 3).2.1.mpr (by decide)⟩

/-- C4: `find(t)` performs the same first-match search as `get(t)` but never
fails: its result is at most `element_end()`, no child before it matches, the
child at it (when it is not `element_end()`) is the first match and is the
one `get(t)` returns, and it equals `element_end()` exactly when no child has
type `t`. -/
theorem claim_C4_find (b : Block) (t : Nat) :
    b.find t ≤ b.element_end
  ∧ (∀ c ∈ b.m_subBlocks.take (b.find t), c.m_type ≠ t)
  ∧ (b.find t = b.element_end ↔ ∀ c ∈ b.m_subBlocks, c.m_type ≠ t)
  ∧ ∀ h : b.find t < b.m_subBlocks.length,
      (b.m_subBlocks.get ⟨b.find t, h⟩).m_type = t
        ∧ b.get t = .ok (b.m_subBlocks.get ⟨b.find t, h⟩) :=
  ⟨findLoop_le_length t _, findLoop_take t _, findLoop_eq_length_iff t _,
   fun h => findLoop_get t _ h⟩

/-- Witness for C4: in a container with children of types 1, 2, 1, `find 3`
is the end marker and `find 1` designates a type-1 child. -/
theorem claim_C4_witness :
    (Block.mk none 7 0 0 0 0 0 [Block.mk none 1 0 0 0 0 0 [], Block.mk none 2 0 0 0 0 0 [],
        Block.mk none 1 0 0 9 0 0 []]).find 3
      = (Block.mk none 7 0 0 0 0 0 [Block.mk none 1 0 0 0 0 0 [], Block.mk none 2 0 0 0 0 0 [],
        Block.mk none 1 0 0 9 0 0 []]).element_end
  ∧ ((Block.mk none 7 0 0 0 0 0 [Block.mk none 1 0 0 0 0 0 [], Block.mk none 2 0 0 0 0 0 [],
        Block.mk none 1 0 0 9 0 0 []]).m_subBlocks.get
      ⟨(Block.mk none 7 0 0 0 0 0 [Block.mk none 1 0 0 0 0 0 [], Block.mk none 2 0 0 0 0 0 [],
        Block.mk none 1 0 0 9 0 0 []]).find 1, by decide⟩).m_type = 1 :=
  ⟨(claim_C4_find _ 3).2.2.1.mpr (by decide),
   ((claim_C4_find _ 1).2.2.2 (by decide)).1⟩

/-- C5: after `remove(t)` the child sequence is the original filtered to the
children whose type differs from `t`, a sublist of the original (relative
order preserved); in particular with no matching child it is unchanged. -/
theorem claim_C5_remove (b : Block) (t : Nat) :
    (b.remove t).m_subBlocks = b.m_subBlocks.filter (fun c => c.m_type != t)
  ∧ List.Sublist (b.remove t).m_subBlocks b.m_subBlocks
  ∧ ((∀ c ∈ b.m_subBlocks, c.m_type ≠ t) → (b.remove t).m_subBlocks = b.m_subBlocks) := by
  have h1 : (b.remove t).m_subBlocks = b.m_subBlocks.filter (fun c => c.m_type != t) := by
    rw [Block.remove, m_subBlocks_withSubBlocks, removeLoop_eq_filter]
  refine ⟨h1, by rw [h1]; exact List.filter_sublist _, ?_⟩
  intro hall
  rw [h1]
  apply List.filter_eq_self.mpr
  intro c hc
  simpa using hall c hc

/-- Witness for C5: removing an absent type leaves the children unchanged;
removing type 1 keeps exactly the type-2 child. -/
theorem claim_C5_witness :
    ((Block.mk none 7 0 0 0 0 0 [Block.mk none 1 0 0 0 0 0 [], Block.mk none 2 0 0 0 0 0 [],
        Block.mk none 1 0 0 9 0 0 []]).remove 3).m_subBlocks
      = [Block.mk none 1 0 0 0 0 0 [], Block.mk none 2 0 0 0 0 0 [],
        Block.mk none 1 0 0 9 0 0 []]
  ∧ ((Block.mk none 7 0 0 0 0 0 [Block.mk none 1 0 0 0 0 0 [], Block.mk none 2 0 0 0 0 0 [],
        Block.mk none 1 0 0 9 0 0 []]).remove 1).m_subBlocks
      = [Block.mk none 2 0 0 0 0 0 []] :=
  ⟨(claim_C5_remove _ 3).2.2 (by decide),
   by rw [(claim_C5_remove _ 1).1]; rfl⟩

/-- C6: for an element without a value buffer, `value_size()` returns 0
without failing, while every buffer-dereferencing accessor raises the
buffer-not-available error under its false precondition: `wire()`, `begin()`,
`end()` when `hasWire()` is false, and `value()`, `value_begin()`,
`value_end()` when `hasValue()` is false. -/
theorem claim_C6_accessors (b : Block) :
    (b.hasValue = false → b.value_size = 0)
  ∧ (b.hasWire = false →
      b.wire = .error ⟨"(Block::wire) Underlying wire buffer is empty"⟩
      ∧ b.begin = .error ⟨"Underlying wire buffer is empty"⟩
      ∧ b.«end» = .error ⟨"Underlying wire buffer is empty"⟩)
  ∧ (b.hasValue = false →
      b.value = .error ⟨"(Block::value) Underlying value buffer is empty"⟩
      ∧ b.value_begin = .error ⟨"(Block::value_begin) Underlying value buffer is empty"⟩
      ∧ b.value_end = .error ⟨"(Block::value_end) Underlying value buffer is empty"⟩) := by
  refine ⟨fun h => ?_, fun h => ⟨?_, ?_, ?_⟩, fun h => ⟨?_, ?_, ?_⟩⟩
  · simp [Block.value_size, h]
  · simp [Block.wire, h]
  · simp [Block.begin, h]
  · simp [Block.«end», h]
  · simp [Block.value, h]
  · simp [Block.value_begin, h]
  · simp [Block.value_end, h]

/-- Witness for C6 at an element with neither buffer nor wire. -/
theorem claim_C6_witness :
    (Block.mk none 5 0 0 0 0 0 []).value_size = 0
  ∧ (Block.mk none 5 0 0 0 0 0 []).wire
      = .error ⟨"(Block::wire) Underlying wire buffer is empty"⟩
  ∧ (Block.mk none 5 0 0 0 0 0 []).value
      = .error ⟨"(Block::value) Underlying value buffer is empty"⟩ :=
  ⟨(claim_C6_accessors (Block.mk none 5 0 0 0 0 0 [])).1 rfl,
   ((claim_C6_accessors (Block.mk none 5 0 0 0 0 0 [])).2.1 rfl).1,
   ((claim_C6_accessors (Block.mk none 5 0 0 0 0 0 [])).2.2 rfl).1⟩

/-- C7: `size()` returns a byte length exactly when `hasWire() || hasValue()`
holds — then it is `m_size` — and raises the undefined-size error when
neither holds. -/
theorem claim_C7_size (b : Block) :
    ((∃ n, b.size = .ok n) ↔ (b.hasWire = true ∨ b.hasValue = true))
  ∧ ((b.hasWire = true ∨ b.hasValue = true) → b.size = .ok b.m_size)
  ∧ (b.hasWire = false ∧ b.hasValue = false →
      b.size = .error ⟨"Block size cannot be determined (undefined block size)"⟩) := by
  by_cases h : (b.hasWire || b.hasValue) = true
  · rw [Bool.or_eq_true] at h
    have hs : b.size = .ok b.m_size := by
      rw [Block.size, if_pos (Bool.or_eq_true _ _ |>.mpr h)]
    refine ⟨⟨fun _ => h, fun _ => ⟨b.m_size, hs⟩⟩, fun _ => hs, fun hc => ?_⟩
    obtain ⟨h1, h2⟩ := hc
    rcases h with h | h
    · rw [h1] at h; cases h
    · rw [h2] at h; cases h
  · have hs : b.size = .error ⟨"Block size cannot be determined (undefined block size)"⟩ := by
      rw [Block.size, if_neg h]
    rw [Bool.or_eq_true] at h
    push_neg at h
    refine ⟨⟨fun hn => ?_, fun hc => ?_⟩, fun hc => ?_, fun _ => hs⟩
    · obtain ⟨n, hn⟩ := hn
      rw [hs] at hn
      cases hn
    · rcases hc with hc | hc
      · exact absurd hc h.1
      · exact absurd hc h.2
    · rcases hc with hc | hc
      · exact absurd hc h.1
      · exact absurd hc h.2

/-- Witness for C7: an element with a value buffer has a defined size; an
element with neither buffer nor wire raises the undefined-size error. -/
theorem claim_C7_witness :
    (Block.mk (some [9]) 1 0 0 1 0 1 []).size = .ok 1
  ∧ (Block.mk none 5 0 0 0 0 0 []).size
      = .error ⟨"Block size cannot be determined (undefined block size)"⟩ :=
  ⟨(claim_C7_size (Block.mk (some [9]) 1 0 0 1 0 1 [])).2.1 (Or.inr rfl),
   (claim_C7_size (Block.mk none 5 0 0 0 0 0 [])).2.2 ⟨rfl, rfl⟩⟩

/-- C8: after `reset()` the element is in the empty state: `empty()` holds
(the type is the `uint32_t` sentinel), the buffer reference is released so
`hasWire()` and `hasValue()` are false, and the child list is cleared. -/
theorem claim_C8_reset (b : Block) :
    (b.reset).empty = true
  ∧ (b.reset).m_type = 2 ^ 32 - 1
  ∧ (b.reset).m_buffer = none
  ∧ (b.reset).hasWire = false
  ∧ (b.reset).hasValue = false
  ∧ (b.reset).m_subBlocks = [] := by
  refine ⟨?_, rfl, rfl, rfl, rfl, rfl⟩
  simp [Block.reset, Block.empty, Block.m_type]

/-- C9: `push_back` appends the element to the end of the child sequence and
leaves every other field — buffer, type, wire range, size, value range — and
the `size()` accessor unchanged. -/
theorem claim_C9_push_back (b e : Block) :
    (b.push_back e).m_subBlocks = b.m_subBlocks ++ [e]
  ∧ (b.push_back e).m_buffer = b.m_buffer
  ∧ (b.push_back e).m_type = b.m_type
  ∧ (b.push_back e).m_begin = b.m_begin
  ∧ (b.push_back e).m_end = b.m_end
  ∧ (b.push_back e).m_size = b.m_size
  ∧ (b.push_back e).m_value_begin = b.m_value_begin
  ∧ (b.push_back e).m_value_end = b.m_value_end
  ∧ (b.push_back e).size = b.size := by
  cases b
  exact ⟨rfl, rfl, rfl, rfl, rfl, rfl, rfl, rfl, rfl⟩

/-- C10: `hasWire()` implies `hasValue()` — the wire predicate conjoins the
buffer-presence test that is exactly `hasValue()` — so whenever the wire
accessors succeed, the value accessors cannot fail for lack of a buffer. -/
theorem claim_C10_wire_implies_value (b : Block) :
    (b.hasWire = true → b.hasValue = true)
  ∧ (∀ p, b.wire = .ok p →
      (∃ q, b.value = .ok q) ∧ (∃ q, b.value_begin = .ok q) ∧ (∃ q, b.value_end = .ok q)) := by
  have himp : b.hasWire = true → b.hasValue = true := by
    intro h
    rw [Block.hasWire, Bool.and_eq_true] at h
    exact h.1
  refine ⟨himp, fun p hp => ?_⟩
  have hw : b.hasWire = true := by
    by_contra hc
    rw [Bool.not_eq_true] at hc
    rw [Block.wire] at hp
    rw [hc] at hp
    cases hp
  have hv := himp hw
  refine ⟨⟨b.m_value_begin, ?_⟩, ⟨b.m_value_begin, ?_⟩, ⟨b.m_value_end, ?_⟩⟩
  · simp [Block.value, hv]
  · simp [Block.value_begin, hv]
  · simp [Block.value_end, hv]

/-- Witness for C10 at an element with a wire form. -/
theorem claim_C10_witness :
    (Block.mk (some [1, 0]) 1 0 2 2 2 2 []).hasValue = true
  ∧ (∃ q, (Block.mk (some [1, 0]) 1 0 2 2 2 2 []).value = .ok q) :=
  ⟨(claim_C10_wire_implies_value _).1 rfl,
   ((claim_C10_wire_implies_value (Block.mk (some [1, 0]) 1 0 2 2 2 2 [])).2 0 rfl).1⟩

/-- C2: re-encoding an element that already has a valid wire form is a no-op;
an element returned by a successful `encode()` re-encodes to itself, so two
`encode()` calls on an unmutated element yield the identical element and
hence bit-identical buffers; and an element returned by a successful
`parse()` re-parses to itself, so a second `parse()` leaves the child list
exactly as after the first and duplicates nothing. -/
theorem claim_C2_idempotence (b b' : Block) :
    (b.hasWire = true → b.encode = .ok b)
  ∧ (b.encode = .ok b' → b'.encode = .ok b')
  ∧ (b.parse = .ok b' → b'.parse = .ok b') :=
  ⟨encode_hasWire b, fun h => encode_hasWire b' (encode_ok_hasWire b b' h),
   parse_ok_parse b b'⟩

/-- Witness for C2 at the element decoded from the wire bytes `[1, 0]`. -/
theorem claim_C2_witness :
    (Block.mk (some [1, 0]) 1 0 2 2 2 2 []).encode = .ok (Block.mk (some [1, 0]) 1 0 2 2 2 2 [])
  ∧ (Block.mk (some [1, 0]) 1 0 2 2 2 2 []).parse = .ok (Block.mk (some [1, 0]) 1 0 2 2 2 2 []) :=
  ⟨(claim_C2_idempotence (Block.mk (some [1, 0]) 1 0 2 2 2 2 [])
      (Block.mk (some [1, 0]) 1 0 2 2 2 2 [])).1 rfl,
   (claim_C2_idempotence (Block.mk (some [1, 0]) 1 0 2 2 2 2 [])
      (Block.mk (some [1, 0]) 1 0 2 2 2 2 [])).2.2 rfl⟩

/-- C1 (amended): for an element built by decoding a byte sequence `B`,
encoding it is a no-op that reproduces exactly the decoded TLV extent of `B`
— its first `size` bytes — and hence all of `B` whenever that extent spans
the whole buffer; and for every element constructed via the section 4.1
forms (the fully-explicit form under its asserted-correct-boundaries
precondition, buffer ranges within the buffer, value and type sizes within
their C++ integer ranges), decoding the output of `encode()` yields an
element with the same type and the same value-byte sequence. -/
theorem claim_C1_roundtrip :
    (∀ B b, Block.fromBuffer B = .ok b →
      b.encode = .ok b ∧ b.wireBytes = B.take b.m_size
        ∧ (b.m_size = B.length → b.wireBytes = B) ∧ RoundTrips b)
  ∧ (∀ buf i j b, j ≤ buf.length → Block.fromBufferRange buf i j = .ok b → RoundTrips b)
  ∧ (∀ bytes b, Block.fromRaw bytes = .ok b → RoundTrips b)
  ∧ (∀ t, RoundTrips (Block.fromType t))
  ∧ (∀ t v, v.length < 2 ^ 64 → RoundTrips (Block.fromTypeValue t v))
  ∧ (∀ t inner b, Block.fromNested t inner = .ok b → b.valueBytes.length < 2 ^ 64 →
      RoundTrips b)
  ∧ (∀ buf t i j vb ve b, j ≤ buf.length → Block.fromBufferRange buf i j = .ok b →
      Block.fromWire buf t i j vb ve = b → RoundTrips (Block.fromWire buf t i j vb ve)) := by
  refine ⟨?_, ?_, ?_, ?_, ?_, ?_, ?_⟩
  · intro B b h
    obtain ⟨he, hw, hrt⟩ := fromBuffer_roundTrip B b h
    refine ⟨he, hw, ?_, hrt⟩
    intro hsz
    rw [hw, hsz, List.take_length]
  · intro buf i j b hj h
    exact fromBufferRange_roundTrip buf i j b hj h
  · intro bytes b h
    exact (fromBuffer_roundTrip bytes b h).2.2
  · intro t
    exact RT_fromType t
  · intro t v hv
    exact RT_fromTypeValue t v hv
  · intro t inner b h hlen
    obtain ⟨i, hi, rfl⟩ := fromNested_inv t inner b h
    refine RT_fromTypeValue t i.wireBytes ?_
    rw [← fromTypeValue_valueBytes t i.wireBytes]
    exact hlen
  · intro buf t i j vb ve b hj h heq
    rw [heq]
    exact fromBufferRange_roundTrip buf i j b hj h

/-- Counterexample for C1 as stated: decoding `B = [1, 0, 2]` succeeds — a
TLV element of type 1 and length 0 followed by one trailing byte, the wire
range being exactly the two consumed bytes — the decoded element already has
a wire form so encoding it is a no-op, and its encoding `[1, 0]` is not `B`:
"encoding `E` reproduces `B` exactly" fails whenever the decoded TLV extent
does not span the whole byte sequence. -/
theorem claim_C1_counterexample :
    Block.fromBuffer [1, 0, 2] = .ok (Block.mk (some [1, 0, 2]) 1 0 2 2 2 2 [])
  ∧ (Block.mk (some [1, 0, 2]) 1 0 2 2 2 2 []).encode
      = .ok (Block.mk (some [1, 0, 2]) 1 0 2 2 2 2 [])
  ∧ (Block.mk (some [1, 0, 2]) 1 0 2 2 2 2 []).wireBytes = [1, 0]
  ∧ [1, 0] ≠ ([1, 0, 2] : List Nat) :=
  ⟨rfl, encode_hasWire _ rfl, rfl, by decide⟩

/-- Witness for C1 at concrete inputs: the element decoded from the section 8
scenario bytes, and a type+value element. -/
theorem claim_C1_witness :
    RoundTrips (Block.mk (some [5, 7, 1, 3, 1, 2, 3, 2, 0]) 5 0 9 9 2 9 [])
  ∧ RoundTrips (Block.fromTypeValue 7 [1, 2, 3]) :=
  ⟨(claim_C1_roundtrip.1 [5, 7, 1, 3, 1, 2, 3, 2, 0]
      (Block.mk (some [5, 7, 1, 3, 1, 2, 3, 2, 0]) 5 0 9 9 2 9 []) rfl).2.2.2,
   claim_C1_roundtrip.2.2.2.2.1 7 [1, 2, 3] (by norm_num)⟩
